import Mathlib

/-!
Verification development for the CustomRedirector browser extension
(src/background.js): a URL redirection rule engine.

The embedding translates the three pieces of the background script:

* `matchesPattern` (src/background.js:33-57): a wildcard pattern is turned
  into an anchored case-insensitive matching expression by escaping every
  special character except the asterisk and replacing each asterisk with a
  match-any-sequence token; if the transformed body does not end in that
  token, an optional trailing slash token and an end anchor are appended.
  We model the construction of the expression source character by
  character (`escapeRegexChars`, `starToDotStar`, `regexSource`), parse it
  into a token list (`parseAnchored`), and run the tokens against the URL
  (`rmatch`).  Case-insensitive comparison is modelled as ASCII case
  folding via `Char.toLower`, and the match-any token accepts every
  character; navigated URLs contain neither non-ASCII case pairs nor line
  terminators, for which the host matcher differs from this idealisation.
  A source that fails to parse makes `matchesPattern` answer `false`,
  which models the catch branch of the script.

* the `chrome.webNavigation.onBeforeNavigate` listener
  (src/background.js:63-89): modelled by `evalRules` (the for loop over
  the stored rules) and `handleNavigation` (frame filtering, the storage
  read and the issued redirect commands).

* the `chrome.runtime.onInstalled` listener (src/background.js:16-25):
  modelled by `onInstalledHandler` acting on the stored rule-list value.
-/

/-- Atom of the compiled matching expression: a literal character
(compared case-insensitively) or the match-any character. -/
inductive RAtom where
  | lit (c : Char)
  | dot
deriving DecidableEq, Repr

/-- Token of the compiled matching expression: a single atom, an atom
repeated any number of times, or an optional atom. -/
inductive RTok where
  | atom (a : RAtom)
  | star (a : RAtom)
  | opt (a : RAtom)
deriving DecidableEq, Repr

/-- Whether an atom accepts a character.  Literals compare by ASCII case
folding, modelling the case-insensitive flag of the host matcher. -/
def atomMatches (a : RAtom) (c : Char) : Bool :=
  match a with
  | RAtom.lit l => l.toLower == c.toLower
  | RAtom.dot => true

/-- All suffixes of the input reachable by consuming a front run of
characters each accepted by the atom; these are exactly the continuation
points of a starred atom. -/
def starSuffixes (a : RAtom) : List Char → List (List Char)
  | [] => [[]]
  | c :: cs => (c :: cs) :: (if atomMatches a c then starSuffixes a cs else [])

/-- Run a compiled token list against the full input.  The token list is
anchored at both ends: the empty token list accepts only the empty
input. -/
def rmatch : List RTok → List Char → Bool
  | [], u => u.isEmpty
  | RTok.atom _ :: _, [] => false
  | RTok.atom a :: ts, c :: cs => atomMatches a c && rmatch ts cs
  | RTok.opt _ :: ts, [] => rmatch ts []
  | RTok.opt a :: ts, c :: cs => rmatch ts (c :: cs) || (atomMatches a c && rmatch ts cs)
  | RTok.star a :: ts, u => (starSuffixes a u).any (fun s => rmatch ts s)

/-- Characters escaped by the script's escape step
(src/background.js:37): every special character of the expression
language except the asterisk. -/
def isRegexSpecial (c : Char) : Bool :=
  c = '.' || c = '+' || c = '?' || c = '^' || c = '$' || c = '\x7b' || c = '\x7d' ||
  c = '(' || c = ')' || c = '|' || c = '[' || c = ']' || c = '\\'

/-- Escape step (src/background.js:37): each special character is
prefixed with a backslash. -/
def escapeRegexChars : List Char → List Char
  | [] => []
  | c :: cs => (if isRegexSpecial c then ['\\', c] else [c]) ++ escapeRegexChars cs

/-- Wildcard step (src/background.js:38): each asterisk is replaced by
the match-any-sequence token, written as a dot followed by a star. -/
def starToDotStar : List Char → List Char
  | [] => []
  | c :: cs => (if c = '*' then ['.', '*'] else [c]) ++ starToDotStar cs

/-- Body of the expression source: the pattern after the escape and
wildcard steps. -/
def bodyOf (p : List Char) : List Char := starToDotStar (escapeRegexChars p)

/-- Contribution of a single pattern character to the expression body. -/
def unitOf (c : Char) : List Char :=
  if c = '*' then ['.', '*']
  else if isRegexSpecial c then ['\\', c]
  else [c]

/-- Characters that cannot stand on their own as a literal in the body of
the expression source. -/
def isBodyMeta (c : Char) : Bool :=
  c = '*' || isRegexSpecial c

/-- Parse the body of an expression source (everything after the start
anchor) into a token list.  The only accepted terminator is the end
anchor; a dangling escape, a quantifier without a preceding atom, or an
unescaped special character yields no result.  This models validity of
the expression handed to the host's expression constructor. -/
def parseBody : List Char → Option (List RTok)
  | [] => none
  | [c] => if c = '$' then some [] else none
  | c :: d :: rest =>
    if c = '$' then none
    else if c = '\\' then
      match rest with
      | [] => none
      | e :: rest2 =>
        if e = '*' then (parseBody rest2).map (fun ts => RTok.star (RAtom.lit d) :: ts)
        else if e = '?' then (parseBody rest2).map (fun ts => RTok.opt (RAtom.lit d) :: ts)
        else (parseBody (e :: rest2)).map (fun ts => RTok.atom (RAtom.lit d) :: ts)
    else if c = '.' then
      if d = '*' then (parseBody rest).map (fun ts => RTok.star RAtom.dot :: ts)
      else if d = '?' then (parseBody rest).map (fun ts => RTok.opt RAtom.dot :: ts)
      else (parseBody (d :: rest)).map (fun ts => RTok.atom RAtom.dot :: ts)
    else if isBodyMeta c then none
    else
      if d = '*' then (parseBody rest).map (fun ts => RTok.star (RAtom.lit c) :: ts)
      else if d = '?' then (parseBody rest).map (fun ts => RTok.opt (RAtom.lit c) :: ts)
      else (parseBody (d :: rest)).map (fun ts => RTok.atom (RAtom.lit c) :: ts)

/-- Parse a complete expression source: a start anchor followed by a body
terminated by the end anchor. -/
def parseAnchored (cs : List Char) : Option (List RTok) :=
  match cs with
  | '^' :: rest => parseBody rest
  | _ => none

/-- Expression source built by the script (src/background.js:36-46): the
escaped and wildcard-expanded pattern, wrapped in anchors, with an
optional trailing slash token when the body does not end in the
match-any-sequence token. -/
def regexSource (p : List Char) : List Char :=
  if ['.', '*'].isSuffixOf (bodyOf p) then '^' :: (bodyOf p ++ ['$'])
  else '^' :: (bodyOf p ++ ['/', '?', '$'])

/-- The matcher of src/background.js:33-57: build the expression source
from the pattern, compile it, and test the URL against it.  A source
that fails to compile yields false, modelling the catch branch of
src/background.js:53-56. -/
def matchesPattern (url pattern : String) : Bool :=
  match parseAnchored (regexSource pattern.data) with
  | some toks => rmatch toks url.data
  | none => false

/-- Whether a pattern ends in an asterisk. -/
def endsStar (p : List Char) : Bool :=
  match p.reverse with
  | c :: _ => c = '*'
  | [] => false

/-- Token list the compiled expression body denotes: one literal atom per
ordinary pattern character and one starred match-any token per
asterisk. -/
def toksOf (p : List Char) : List RTok :=
  p.map (fun c => if c = '*' then RTok.star RAtom.dot else RTok.atom (RAtom.lit c))

/-- A persisted redirect rule (the records stored by the popup under the
redirectRules key). -/
structure Rule where
  id : Nat
  pattern : String
  redirect : String
  enabled : Bool
deriving DecidableEq, Repr

/-- A navigation event delivered to the onBeforeNavigate listener. -/
structure NavigationEvent where
  tabId : Nat
  url : String
  frameId : Nat
deriving DecidableEq, Repr

/-- A redirect command issued to the host (chrome.tabs.update). -/
structure RedirectCommand where
  tabId : Nat
  url : String
deriving DecidableEq, Repr

/-- Observable outcome of handling one navigation event: how many times
the rule store was read, and the redirect commands issued. -/
structure NavOutcome where
  storeReads : Nat
  commands : List RedirectCommand
deriving DecidableEq, Repr

/-- The for loop of src/background.js:71-86: walk the stored rules in
order; a disabled or non-matching rule is passed over, a matching rule
whose redirect equals the navigated URL is skipped with evaluation
continuing, and the first remaining matching rule issues its redirect
and stops the walk.  The result collects the redirect targets issued. -/
def evalRules (url : String) : List Rule → List String
  | [] => []
  | r :: rs =>
    if r.enabled && matchesPattern url r.pattern then
      if url = r.redirect then evalRules url rs
      else [r.redirect]
    else evalRules url rs

/-- The onBeforeNavigate listener of src/background.js:63-89: events of a
subframe are dropped before any storage access; otherwise the rule list
is read once (a missing or failed read standing for no stored value) and
the evaluation loop runs on the snapshot, each issued target becoming a
redirect command for the event's tab. -/
def handleNavigation (store : Option (List Rule)) (ev : NavigationEvent) : NavOutcome :=
  if ev.frameId ≠ 0 then { storeReads := 0, commands := [] }
  else
    { storeReads := 1
      commands := (evalRules ev.url (store.getD [])).map
        (fun u => { tabId := ev.tabId, url := u }) }

/-- The onInstalled listener of src/background.js:16-25: read the stored
rule-list value; only when no value is present is the empty list written.
The result pairs the store contents afterwards with the number of writes
performed. -/
def onInstalledHandler (stored : Option (List Rule)) : Option (List Rule) × Nat :=
  match stored with
  | none => (some [], 1)
  | some rs => (some rs, 0)

/-- Predicate satisfied by exactly the rules the evaluation loop selects:
enabled, pattern matching the URL, and redirect different from the URL. -/
def selectable (url : String) (r : Rule) : Bool :=
  r.enabled && matchesPattern url r.pattern && !(url == r.redirect)

/-- Lists whose head could not be mistaken for a quantifier of a
preceding atom; the expression bodies built from patterns and the
suffixes appended to them all have this shape. -/
def headOk : List Char → Prop
  | [] => True
  | c :: _ => c ≠ '*' ∧ c ≠ '?'

example : matchesPattern "https://example.com/old" "https://example.com/old" = true := by decide
example : matchesPattern "https://example.com/old/" "https://example.com/old" = true := by decide
example : matchesPattern "https://example.com/old2" "https://example.com/old" = false := by decide
example : matchesPattern "HTTPS://EXAMPLE.COM/OLD" "https://example.com/old" = true := by decide
example : matchesPattern "https://example.com/a/b" "https://example.com/*" = true := by decide
example : matchesPattern "https://a.com" "*" = true := by decide
example : matchesPattern "https://b.com" "https://a.com" = false := by decide
example :
    evalRules "https://a.com"
      [{ id := 1, pattern := "*", redirect := "https://x.com", enabled := false },
       { id := 2, pattern := "https://a.com", redirect := "https://b.com", enabled := true }]
      = ["https://b.com"] := by decide

/-- The evaluation loop issues exactly the redirect of the first stored
rule that is enabled, matches the URL, and does not loop, and nothing
when no such rule exists. -/
theorem evalRules_eq_find (url : String) (rules : List Rule) :
    evalRules url rules = ((rules.find? (selectable url)).map Rule.redirect).toList := by
  induction rules with
  | nil => rfl
  | cons r rs ih =>
    by_cases hem : (r.enabled && matchesPattern url r.pattern) = true
    · by_cases hloop : url = r.redirect
      · have hsel : selectable url r = false := by
          simp [selectable, hloop]
        have h1 : evalRules url (r :: rs) = evalRules url rs := by
          simp [evalRules, hem, hloop]
        rw [h1, ih]
        simp [List.find?_cons, hsel]
      · have hsel : selectable url r = true := by
          simp only [selectable, Bool.and_eq_true] at hem ⊢
          exact ⟨hem, by simp [hloop]⟩
        simp [evalRules, hem, hloop, List.find?, hsel]
    · have hsel : selectable url r = false := by
        have : (r.enabled && matchesPattern url r.pattern) = false := by
          simpa using hem
        simp [selectable, this]
      simp [evalRules, hem, List.find?, hsel, ih]

/-- C1: for every navigation event and rule snapshot at most one redirect
command is issued, and it is the redirect of the first stored rule that
is enabled, matches the URL, and does not loop; for a two-rule snapshot
where both rules are enabled, match, and do not loop, only the first
rule's redirect is issued. -/
theorem claim1_first_match_only (url : String) (rules : List Rule) (r1 r2 : Rule)
    (h1e : r1.enabled = true) (h1m : matchesPattern url r1.pattern = true)
    (h1l : url ≠ r1.redirect)
    (h2e : r2.enabled = true) (h2m : matchesPattern url r2.pattern = true)
    (h2l : url ≠ r2.redirect) :
    (evalRules url rules).length ≤ 1
    ∧ evalRules url rules = ((rules.find? (selectable url)).map Rule.redirect).toList
    ∧ evalRules url [r1, r2] = [r1.redirect] := by
  refine ⟨?_, evalRules_eq_find url rules, ?_⟩
  · rw [evalRules_eq_find]
    cases rules.find? (selectable url) <;> simp
  · simp [evalRules, h1e, h1m, h1l]

theorem claim1_first_match_only_witness :
    evalRules "https://a.com"
      [{ id := 1, pattern := "https://a.com", redirect := "https://b.com", enabled := true },
       { id := 2, pattern := "*", redirect := "https://c.com", enabled := true }]
      = ["https://b.com"] :=
  (claim1_first_match_only "https://a.com"
      [{ id := 1, pattern := "https://a.com", redirect := "https://b.com", enabled := true },
       { id := 2, pattern := "*", redirect := "https://c.com", enabled := true }]
      { id := 1, pattern := "https://a.com", redirect := "https://b.com", enabled := true }
      { id := 2, pattern := "*", redirect := "https://c.com", enabled := true }
      (by decide) (by decide) (by decide) (by decide) (by decide) (by decide)).2.2

/-- C4: an enabled matching rule whose redirect equals the navigated URL
never produces a redirect; evaluation continues past it, and a later
enabled, matching, non-looping rule is still selected. -/
theorem claim4_loop_rule_skipped_continue (url : String) (r r2 : Rule)
    (rs rs2 : List Rule)
    (he : r.enabled = true) (hm : matchesPattern url r.pattern = true)
    (hl : r.redirect = url) :
    evalRules url (r :: rs) = evalRules url rs
    ∧ (r2.enabled = true → matchesPattern url r2.pattern = true → r2.redirect ≠ url →
        evalRules url (r :: r2 :: rs2) = [r2.redirect]) := by
  have hskip : ∀ tail : List Rule, evalRules url (r :: tail) = evalRules url tail := by
    intro tail
    simp [evalRules, he, hm, hl.symm]
  refine ⟨hskip rs, ?_⟩
  intro h2e h2m h2l
  rw [hskip (r2 :: rs2)]
  simp [evalRules, h2e, h2m, Ne.symm h2l]

theorem claim4_loop_rule_skipped_continue_witness :
    evalRules "https://example.com/new"
      [{ id := 1, pattern := "https://example.com/*", redirect := "https://example.com/new",
         enabled := true },
       { id := 2, pattern := "https://example.com/*", redirect := "https://example.com/other",
         enabled := true }]
      = ["https://example.com/other"] :=
  (claim4_loop_rule_skipped_continue "https://example.com/new"
      { id := 1, pattern := "https://example.com/*", redirect := "https://example.com/new",
        enabled := true }
      { id := 2, pattern := "https://example.com/*", redirect := "https://example.com/other",
        enabled := true }
      [] [] (by decide) (by decide) (by decide)).2 (by decide) (by decide) (by decide)

/-- C5: the install-time initializer writes the empty rule list only when
no rule-list value is stored; an existing value, the empty list included,
is left untouched with no write, so a second invocation is a no-op. -/
theorem claim5_install_init_idempotent (rs : List Rule) (s : Option (List Rule)) :
    onInstalledHandler (some rs) = (some rs, 0)
    ∧ onInstalledHandler none = (some [], 1)
    ∧ onInstalledHandler (onInstalledHandler s).1 = ((onInstalledHandler s).1, 0) := by
  refine ⟨rfl, rfl, ?_⟩
  cases s <;> rfl

/-- C6: a disabled rule never contributes a redirect command, whatever
its pattern, and evaluation continues past it; in the two-rule scenario
the disabled catch-all rule is skipped and the second rule issues its
redirect. -/
theorem claim6_disabled_rule_skipped (url : String) (r : Rule) (rs : List Rule)
    (hd : r.enabled = false) :
    evalRules url (r :: rs) = evalRules url rs
    ∧ evalRules "https://a.com"
        [{ id := 1, pattern := "*", redirect := "https://x.com", enabled := false },
         { id := 2, pattern := "https://a.com", redirect := "https://b.com", enabled := true }]
        = ["https://b.com"] := by
  refine ⟨?_, by decide⟩
  simp [evalRules, hd]

theorem claim6_disabled_rule_skipped_witness :
    evalRules "https://a.com"
      [{ id := 1, pattern := "*", redirect := "https://x.com", enabled := false }] = [] :=
  ((claim6_disabled_rule_skipped "https://a.com"
      { id := 1, pattern := "*", redirect := "https://x.com", enabled := false } [] rfl).1).trans rfl

/-- C8: a navigation event of a subframe causes no rule-store read and no
redirect command, for any rule snapshot. -/
theorem claim8_subframe_ignored (store : Option (List Rule)) (ev : NavigationEvent)
    (h : ev.frameId ≠ 0) :
    (handleNavigation store ev).storeReads = 0
    ∧ (handleNavigation store ev).commands = [] := by
  simp [handleNavigation, h]

theorem claim8_subframe_ignored_witness :
    (handleNavigation
        (some [{ id := 1, pattern := "*", redirect := "https://b.com", enabled := true }])
        { tabId := 5, url := "https://a.com", frameId := 1 }).commands = [] :=
  (claim8_subframe_ignored
      (some [{ id := 1, pattern := "*", redirect := "https://b.com", enabled := true }])
      { tabId := 5, url := "https://a.com", frameId := 1 } (by decide)).2

/-- C9: when the rule-store read yields no rule list, the interceptor
behaves exactly as on the empty rule list: no redirect command, no fatal
error, and a single read with no retry. -/
theorem claim9_missing_rules_as_empty (ev : NavigationEvent) :
    handleNavigation none ev = handleNavigation (some []) ev
    ∧ (handleNavigation none ev).commands = []
    ∧ (handleNavigation none ev).storeReads ≤ 1 := by
  by_cases h : ev.frameId = 0 <;> simp [handleNavigation, h, evalRules]

/-- An escaped special character is never the asterisk. -/
theorem ne_star_of_special {c : Char} (h : isRegexSpecial c = true) : c ≠ '*' := by
  intro hc
  subst hc
  exact absurd h (by decide)

/-- A character the escape step leaves alone is none of the structural
characters of the expression language. -/
theorem ne_of_not_special {c : Char} (h : isRegexSpecial c = false) :
    c ≠ '$' ∧ c ≠ '\\' ∧ c ≠ '.' ∧ c ≠ '?' := by
  refine ⟨?_, ?_, ?_, ?_⟩ <;> intro hc <;> subst hc <;> exact absurd h (by decide)

theorem escapeRegexChars_append (a b : List Char) :
    escapeRegexChars (a ++ b) = escapeRegexChars a ++ escapeRegexChars b := by
  induction a with
  | nil => rfl
  | cons c cs ih => simp [escapeRegexChars, ih]

theorem starToDotStar_append (a b : List Char) :
    starToDotStar (a ++ b) = starToDotStar a ++ starToDotStar b := by
  induction a with
  | nil => rfl
  | cons c cs ih => simp [starToDotStar, ih]

theorem bodyOf_append (a b : List Char) : bodyOf (a ++ b) = bodyOf a ++ bodyOf b := by
  simp [bodyOf, escapeRegexChars_append, starToDotStar_append]

/-- The expression body of a pattern is built unit by unit. -/
theorem bodyOf_cons (c : Char) (p : List Char) :
    bodyOf (c :: p) = unitOf c ++ bodyOf p := by
  by_cases hstar : c = '*'
  · subst hstar
    have h1 : isRegexSpecial '*' = false := by decide
    simp [bodyOf, escapeRegexChars, starToDotStar, unitOf, h1]
  · by_cases hs : isRegexSpecial c = true
    · have hb : ('\\' = '*') = False := by simp
      simp [bodyOf, escapeRegexChars, starToDotStar, unitOf, hs, hstar, hb]
    · have hs' : isRegexSpecial c = false := by simpa using hs
      simp [bodyOf, escapeRegexChars, starToDotStar, unitOf, hs', hstar]

/-- The expression body of a single pattern character is its unit. -/
theorem bodyOf_singleton (c : Char) : bodyOf [c] = unitOf c := by
  have h := bodyOf_cons c []
  simpa [bodyOf, escapeRegexChars, starToDotStar] using h

/-- Prepending an expression body preserves the quantifier-free head
shape. -/
theorem headOk_bodyOf (p rest : List Char) (h : headOk rest) :
    headOk (bodyOf p ++ rest) := by
  cases p with
  | nil => simpa [bodyOf, escapeRegexChars, starToDotStar] using h
  | cons c p' =>
    rw [bodyOf_cons]
    by_cases hstar : c = '*'
    · subst hstar
      simp [unitOf, headOk]
    · by_cases hs : isRegexSpecial c = true
      · simp [unitOf, hstar, hs, headOk]
      · have hs' : isRegexSpecial c = false := by simpa using hs
        simp only [unitOf, hstar, hs', if_false, Bool.false_eq_true, List.cons_append,
          List.nil_append, headOk]
        exact ⟨hstar, (ne_of_not_special hs').2.2.2⟩

/-- The expression body ends in the match-any-sequence token exactly when
the pattern ends in an asterisk. -/
theorem isSuffix_bodyOf_eq_endsStar (p : List Char) :
    (['.', '*'].isSuffixOf (bodyOf p)) = endsStar p := by
  rcases List.eq_nil_or_concat p with rfl | ⟨q, c, rfl⟩
  · decide
  · rw [List.concat_eq_append, bodyOf_append, bodyOf_singleton]
    by_cases hstar : c = '*'
    · subst hstar
      simp [unitOf, List.isSuffixOf, List.isPrefixOf, endsStar]
    · have hstar' : ('*' : Char) ≠ c := fun h => hstar h.symm
      by_cases hs : isRegexSpecial c = true
      · simp [unitOf, hstar, hs, List.isSuffixOf, List.isPrefixOf, endsStar, hstar']
      · have hs' : isRegexSpecial c = false := by simpa using hs
        simp [unitOf, hstar, hs', List.isSuffixOf, List.isPrefixOf, endsStar, hstar']

/-- A pattern ending in an asterisk splits off its final character. -/
theorem endsStar_concat (p : List Char) (h : endsStar p = true) : ∃ q, p = q ++ ['*'] := by
  unfold endsStar at h
  rcases hp : p.reverse with _ | ⟨c, t⟩
  · rw [hp] at h
    simp at h
  · rw [hp] at h
    simp at h
    subst h
    refine ⟨t.reverse, ?_⟩
    rw [← List.reverse_reverse p, hp]
    simp

/-- A pattern without asterisks does not end in one. -/
theorem endsStar_eq_false (p : List Char) (h : '*' ∉ p) : endsStar p = false := by
  cases he : endsStar p
  · rfl
  · obtain ⟨q, rfl⟩ := endsStar_concat p he
    exact absurd (by simp : ('*' : Char) ∈ q ++ ['*']) h

/-- Asterisk-free patterns compile to literal atoms only. -/
theorem toksOf_no_star (p : List Char) (h : '*' ∉ p) :
    toksOf p = p.map (fun c => RTok.atom (RAtom.lit c)) := by
  unfold toksOf
  apply List.map_congr_left
  intro a ha
  have hne : a ≠ '*' := fun hc => h (hc ▸ ha)
  simp [hne]

/-- The final asterisk of a pattern contributes the trailing match-any
token. -/
theorem toksOf_concat_star (q : List Char) :
    toksOf (q ++ ['*']) = toksOf q ++ [RTok.star RAtom.dot] := by
  simp [toksOf]

/-- Parsing step for the match-any-sequence token. -/
theorem parseBody_dotstar (rest : List Char) :
    parseBody ('.' :: '*' :: rest)
      = (parseBody rest).map (fun ts => RTok.star RAtom.dot :: ts) := by
  rw [parseBody.eq_def]
  simp

/-- Parsing step for an escaped literal not followed by a quantifier. -/
theorem parseBody_escaped (c t0 : Char) (tr : List Char) (h1 : t0 ≠ '*') (h2 : t0 ≠ '?') :
    parseBody ('\\' :: c :: t0 :: tr)
      = (parseBody (t0 :: tr)).map (fun ts => RTok.atom (RAtom.lit c) :: ts) := by
  rw [parseBody.eq_def]
  simp [h1, h2]

/-- Parsing step for a plain literal not followed by a quantifier. -/
theorem parseBody_safe (c t0 : Char) (tr : List Char)
    (hc : isRegexSpecial c = false) (hcs : c ≠ '*') (h1 : t0 ≠ '*') (h2 : t0 ≠ '?') :
    parseBody (c :: t0 :: tr)
      = (parseBody (t0 :: tr)).map (fun ts => RTok.atom (RAtom.lit c) :: ts) := by
  obtain ⟨hd, hb, hdot, _⟩ := ne_of_not_special hc
  rw [parseBody.eq_def]
  simp [hd, hb, hdot, isBodyMeta, hc, hcs, h1, h2]

/-- Parsing an expression that starts with the body compiled from a
pattern peels off exactly the tokens of the pattern. -/
theorem parseBody_bodyOf_append (p rest : List Char) (hne : rest ≠ []) (hok : headOk rest) :
    parseBody (bodyOf p ++ rest) = (parseBody rest).map (fun ts => toksOf p ++ ts) := by
  induction p with
  | nil =>
    simp only [bodyOf, escapeRegexChars, starToDotStar, List.nil_append]
    cases parseBody rest <;> simp [toksOf]
  | cons c p' ih =>
    have htailok : headOk (bodyOf p' ++ rest) := headOk_bodyOf p' rest hok
    have htailne : bodyOf p' ++ rest ≠ [] := by
      intro hcontra
      exact hne (List.append_eq_nil.mp hcontra).2
    obtain ⟨t0, tr, hx⟩ : ∃ t0 tr, bodyOf p' ++ rest = t0 :: tr := by
      rcases hy : bodyOf p' ++ rest with _ | ⟨t0, tr⟩
      · exact absurd hy htailne
      · exact ⟨t0, tr, rfl⟩
    rw [bodyOf_cons, List.append_assoc, hx]
    rw [hx] at htailok ih
    obtain ⟨ht0s, ht0q⟩ := htailok
    by_cases hstar : c = '*'
    · subst hstar
      rw [show unitOf '*' = ['.', '*'] from rfl]
      rw [show (['.', '*'] : List Char) ++ (t0 :: tr) = '.' :: '*' :: (t0 :: tr) from rfl]
      rw [parseBody_dotstar, ih, Option.map_map]
      cases parseBody rest <;> simp [toksOf]
    · by_cases hs : isRegexSpecial c = true
      · rw [show unitOf c = ['\\', c] by simp [unitOf, hstar, hs]]
        rw [show (['\\', c] : List Char) ++ (t0 :: tr) = '\\' :: c :: t0 :: tr from rfl]
        rw [parseBody_escaped c t0 tr ht0s ht0q, ih, Option.map_map]
        cases parseBody rest <;> simp [toksOf, hstar]
      · have hs' : isRegexSpecial c = false := by simpa using hs
        rw [show unitOf c = [c] by simp [unitOf, hstar, hs']]
        rw [show ([c] : List Char) ++ (t0 :: tr) = c :: t0 :: tr from rfl]
        rw [parseBody_safe c t0 tr hs' hstar ht0s ht0q, ih, Option.map_map]
        cases parseBody rest <;> simp [toksOf, hstar]

/-- The expression source built from any pattern parses, and its tokens
are the pattern's tokens followed by the optional trailing slash token
whenever the pattern does not end in an asterisk. -/
theorem parseAnchored_regexSource (p : List Char) :
    parseAnchored (regexSource p)
      = some (toksOf p
          ++ if endsStar p then [] else [RTok.opt (RAtom.lit '/')]) := by
  unfold regexSource
  rw [isSuffix_bodyOf_eq_endsStar]
  by_cases hs : endsStar p = true
  · simp only [hs, if_true, parseAnchored]
    rw [parseBody_bodyOf_append p ['$'] (by simp) (by exact ⟨by decide, by decide⟩)]
    simp [parseBody]
  · have hs' : endsStar p = false := by simpa using hs
    simp only [hs', Bool.false_eq_true, if_false, parseAnchored]
    rw [parseBody_bodyOf_append p ['/', '?', '$'] (by simp) (by exact ⟨by decide, by decide⟩)]
    rw [show parseBody ['/', '?', '$'] = some [RTok.opt (RAtom.lit '/')] by decide]
    rfl

/-- The matcher is the total function running the pattern's tokens
against the URL, with the optional trailing slash for patterns not
ending in an asterisk. -/
theorem matchesPattern_eq_rmatch (url pattern : String) :
    matchesPattern url pattern
      = rmatch (toksOf pattern.data
          ++ if endsStar pattern.data then [] else [RTok.opt (RAtom.lit '/')]) url.data := by
  unfold matchesPattern
  rw [parseAnchored_regexSource]

/-- The empty token list accepts only the empty input. -/
theorem rmatch_nil_iff (u : List Char) : rmatch [] u = true ↔ u = [] := by
  cases u <;> simp [rmatch]

/-- A list of literal atoms accepts exactly the inputs equal to the
literals up to ASCII case folding. -/
theorem rmatch_lit_toks (ps u : List Char) :
    rmatch (ps.map (fun c => RTok.atom (RAtom.lit c))) u = true
      ↔ u.map Char.toLower = ps.map Char.toLower := by
  induction ps generalizing u with
  | nil => cases u <;> simp [rmatch]
  | cons a ps' ih =>
    cases u with
    | nil => simp [rmatch]
    | cons c cs =>
      simp only [List.map_cons, rmatch, atomMatches, Bool.and_eq_true, beq_iff_eq, ih,
        List.cons.injEq]
      constructor
      · rintro ⟨h1, h2⟩
        exact ⟨h1.symm, h2⟩
      · rintro ⟨h1, h2⟩
        exact ⟨h1.symm, h2⟩

/-- A list of literal atoms followed by the optional slash token accepts
exactly the literals, optionally followed by one slash, up to ASCII case
folding. -/
theorem rmatch_lit_toks_optSlash (ps u : List Char) :
    rmatch (ps.map (fun c => RTok.atom (RAtom.lit c)) ++ [RTok.opt (RAtom.lit '/')]) u = true
      ↔ (u.map Char.toLower = ps.map Char.toLower
         ∨ u.map Char.toLower = ps.map Char.toLower ++ ['/']) := by
  induction ps generalizing u with
  | nil =>
    cases u with
    | nil => simp [rmatch]
    | cons c cs =>
      cases cs with
      | nil =>
        have hsl : ('/' : Char).toLower = '/' := rfl
        simp [rmatch, atomMatches, hsl]
        exact eq_comm
      | cons d ds =>
        simp [rmatch, atomMatches]
  | cons a ps' ih =>
    cases u with
    | nil =>
      simp [rmatch]
    | cons c cs =>
      simp only [List.map_cons, List.cons_append, rmatch, atomMatches, Bool.and_eq_true,
        beq_iff_eq, List.cons.injEq]
      constructor
      · rintro ⟨h1, h2⟩
        rcases (ih cs).mp h2 with h3 | h3
        · exact Or.inl ⟨h1.symm, h3⟩
        · exact Or.inr ⟨h1.symm, h3⟩
      · rintro (⟨h1, h3⟩ | ⟨h1, h3⟩)
        · exact ⟨h1.symm, (ih cs).mpr (Or.inl h3)⟩
        · exact ⟨h1.symm, (ih cs).mpr (Or.inr h3)⟩

/-- A starred token can always be skipped. -/
theorem rmatch_of_rmatch_star (a : RAtom) (ts : List RTok) (u : List Char)
    (h : rmatch ts u = true) : rmatch (RTok.star a :: ts) u = true := by
  cases u with
  | nil => simpa [rmatch, starSuffixes] using h
  | cons c cs => simp [rmatch, starSuffixes, h]

/-- Unfolding of a starred match-any token on a nonempty input. -/
theorem rmatch_star_dot_cons (ts : List RTok) (c : Char) (cs : List Char) :
    rmatch (RTok.star RAtom.dot :: ts) (c :: cs)
      = (rmatch ts (c :: cs) || rmatch (RTok.star RAtom.dot :: ts) cs) := by
  simp [rmatch, starSuffixes, atomMatches]

/-- A starred match-any token alone accepts every input. -/
theorem rmatch_single_star_dot (u : List Char) :
    rmatch [RTok.star RAtom.dot] u = true := by
  induction u with
  | nil => decide
  | cons c cs ih =>
    rw [rmatch_star_dot_cons]
    simp [ih]

/-- The tokens of a pattern followed by a trailing starred match-any
token accept any input beginning, up to ASCII case folding, with the
pattern's text. -/
theorem rmatch_toks_prefix_star (q pre tail : List Char)
    (h : pre.map Char.toLower = q.map Char.toLower) :
    rmatch (toksOf q ++ [RTok.star RAtom.dot]) (pre ++ tail) = true := by
  induction q generalizing pre with
  | nil =>
    have hpre : pre = [] := by simpa using h
    subst hpre
    simpa using rmatch_single_star_dot tail
  | cons a q' ih =>
    cases pre with
    | nil => simp at h
    | cons d pre' =>
      simp only [List.map_cons, List.cons.injEq] at h
      obtain ⟨h1, h2⟩ := h
      by_cases ha : a = '*'
      · subst ha
        have htoks : toksOf ('*' :: q') = RTok.star RAtom.dot :: toksOf q' := by
          simp [toksOf]
        rw [htoks, List.cons_append, List.cons_append, rmatch_star_dot_cons]
        have hrec := rmatch_of_rmatch_star RAtom.dot (toksOf q' ++ [RTok.star RAtom.dot])
          (pre' ++ tail) (ih pre' h2)
        simp [hrec]
      · have htoks : toksOf (a :: q') = RTok.atom (RAtom.lit a) :: toksOf q' := by
          simp [toksOf, ha]
        rw [htoks, List.cons_append, List.cons_append]
        simp [rmatch, atomMatches, h1, ih pre' h2]

/-- C2: a pattern without wildcards accepts exactly the URLs equal to the
pattern, or to the pattern followed by a single slash, up to ASCII case
folding, and rejects every other URL. -/
theorem claim2_no_wildcard_exact_or_slash (p url : String) (h : '*' ∉ p.data) :
    matchesPattern url p = true
      ↔ (url.data.map Char.toLower = p.data.map Char.toLower
         ∨ url.data.map Char.toLower = p.data.map Char.toLower ++ ['/']) := by
  rw [matchesPattern_eq_rmatch, endsStar_eq_false p.data h]
  simp only [Bool.false_eq_true, if_false]
  rw [toksOf_no_star p.data h]
  exact rmatch_lit_toks_optSlash p.data url.data

theorem claim2_no_wildcard_exact_or_slash_witness :
    ('*' ∉ "https://example.com/old".data)
    ∧ matchesPattern "https://example.com/old/" "https://example.com/old" = true
    ∧ matchesPattern "https://example.com/old2" "https://example.com/old" = false := by
  refine ⟨by decide, ?_, ?_⟩
  · exact (claim2_no_wildcard_exact_or_slash "https://example.com/old"
      "https://example.com/old/" (by decide)).mpr (Or.inr (by decide))
  · by_contra hmm
    have h1 : matchesPattern "https://example.com/old2" "https://example.com/old" = true := by
      revert hmm
      cases hx : matchesPattern "https://example.com/old2" "https://example.com/old" <;> simp
    have h2 := (claim2_no_wildcard_exact_or_slash "https://example.com/old"
      "https://example.com/old2" (by decide)).mp h1
    rcases h2 with h2 | h2 <;> exact absurd h2 (by decide)

/-- C3: a pattern ending in an asterisk accepts every URL beginning, up
to ASCII case folding, with the text preceding that final asterisk,
whatever characters follow. -/
theorem claim3_trailing_star_prefix_match (p : String) (pre tail : List Char)
    (hstar : endsStar p.data = true)
    (hpre : pre.map Char.toLower = p.data.dropLast.map Char.toLower) :
    matchesPattern { data := pre ++ tail } p = true := by
  obtain ⟨q, hq⟩ := endsStar_concat p.data hstar
  rw [matchesPattern_eq_rmatch, hstar]
  simp only [if_true, List.append_nil]
  rw [hq, toksOf_concat_star]
  apply rmatch_toks_prefix_star
  rw [hpre, hq]
  simp

theorem claim3_trailing_star_prefix_match_witness :
    matchesPattern { data := "https://a.com/".data ++ "zzz?x=1".data } "https://a.com/*"
      = true :=
  claim3_trailing_star_prefix_match "https://a.com/*" "https://a.com/".data "zzz?x=1".data
    (by decide) (by decide)

/-- C7: matching never escapes to the caller: an expression source that
fails to compile makes the matcher answer false on every input, and a
rule whose matcher answers false on the event URL leaves the evaluation
of the remaining rules untouched. -/
theorem claim7_match_failure_contained (url pattern : String) (r : Rule) (rs : List Rule) :
    (parseAnchored (regexSource pattern.data) = none →
      ∀ u : String, matchesPattern u pattern = false)
    ∧ (matchesPattern url r.pattern = false →
        evalRules url (r :: rs) = evalRules url rs) := by
  constructor
  · intro hnone u
    unfold matchesPattern
    rw [hnone]
  · intro hfalse
    simp [evalRules, hfalse]

theorem claim7_match_failure_contained_witness :
    matchesPattern "https://a.com"
        "https://other.example" = false
    ∧ evalRules "https://a.com"
        [{ id := 7, pattern := "https://other.example", redirect := "https://b.com",
           enabled := true }]
        = [] := by
  refine ⟨by decide, ?_⟩
  have h := (claim7_match_failure_contained "https://a.com" "https://other.example"
      { id := 7, pattern := "https://other.example", redirect := "https://b.com",
        enabled := true }
      []).2 (by decide)
  exact h.trans rfl

/-- C10: the expression source built from any pattern is well formed, so
compilation never fails, the always-false fallback is unreachable, and
the matcher is the total function of the URL and the pattern given by
the pattern's tokens. -/
theorem claim10_regex_always_valid (pattern url : String) :
    parseAnchored (regexSource pattern.data)
      = some (toksOf pattern.data
          ++ if endsStar pattern.data then [] else [RTok.opt (RAtom.lit '/')])
    ∧ matchesPattern url pattern
      = rmatch (toksOf pattern.data
          ++ if endsStar pattern.data then [] else [RTok.opt (RAtom.lit '/')]) url.data :=
  ⟨parseAnchored_regexSource pattern.data, matchesPattern_eq_rmatch url pattern⟩
